import Mathlib

/-!
# Verification of the TinyUSB Zephyr OSAL binding (`src/osal/osal_zephyr.h`)

This file gives a shallow embedding of the Zephyr OSAL binding of TinyUSB
and proves (or refutes) the specification claims about it.

The binding is a thin header over Zephyr kernel primitives, so the embedding
models both layers:

* Zephyr's `struct k_sem` is a counting semaphore with a saturation `limit`;
  `k_sem_init(sem, initial, limit)` sets the count, `k_sem_give` increments
  saturating at `limit`, `k_sem_reset` zeroes the count.
* Zephyr's `struct k_mem_slab` is a fixed-block allocator over a
  caller-provided buffer; we track only its number of free blocks, since the
  binding never inspects block contents except through `memcpy`.
* Zephyr's `struct k_fifo` is a linked list of queued items.  The binding
  publishes with `k_fifo_alloc_put`, the variant that allocates the list
  link node for the item from the calling thread's resource pool (a kernel
  heap) and can therefore fail with `-ENOMEM`; `k_fifo_get` removes the head
  and frees that link node back to the pool.  The embedding tracks the pool
  as a count `heapNodes` of free link nodes.
* Byte buffers are `List Nat`; `memcpy(dst, src, n)` is `List.take n`.

Machine state touched by a queue operation (the slab, the FIFO and the
kernel link-node pool) is bundled in `QState` and passed explicitly; the
OSAL functions are translated line by line from the header's control flow.
-/

/-- Zephyr `struct k_sem`: a count saturating at `limit`. -/
structure KSem where
  count : Nat
  limit : Nat
  deriving DecidableEq, Repr

/-- `k_sem_init(sem, initial, limit)`: set the count and the saturation limit. -/
def k_sem_init (initial limit : Nat) : KSem :=
  ⟨initial, limit⟩

/-- `k_sem_give(sem)`: increment the count unless it already equals the limit. -/
def k_sem_give (s : KSem) : KSem :=
  if s.count < s.limit then ⟨s.count + 1, s.limit⟩ else s

/-- `k_sem_reset(sem)`: set the count to zero. -/
def k_sem_reset (s : KSem) : KSem :=
  ⟨0, s.limit⟩

/-- `osal_semaphore_create(semdef)`: the source runs `k_sem_init(semdef, 0, 1)`
and returns `semdef`.  We model the state the created semaphore is left in. -/
def osal_semaphore_create : KSem :=
  k_sem_init 0 1

/-- `osal_semaphore_post(sem_hdl, in_isr)`: the source body is
`k_sem_give(sem_hdl);` with NO return statement, although the function is
declared `bool`.  The state effect is the give; the returned boolean is
modelled as `Option Bool` and is `none` because control falls off the end of
the function without producing a value. -/
def osal_semaphore_post (s : KSem) : KSem × Option Bool :=
  (k_sem_give s, none)

/-- `osal_semaphore_wait(sem_hdl, msec)`: the source computes a timeout and
then executes `return (k_sem_give(sem_hdl, ticks) == 0);` — it calls the
GIVE primitive, not take.  (`k_sem_give` takes no timeout and returns
`void`, so the comparison has no defined value; the state effect is the
give.)  We model the state the semaphore is left in. -/
def osal_semaphore_wait (s : KSem) (msec : Nat) : KSem :=
  k_sem_give s

/-- `osal_semaphore_reset(sem_hdl)`: calls `k_sem_reset`. -/
def osal_semaphore_reset (s : KSem) : KSem :=
  k_sem_reset s

/-- Semaphore states reachable from `osal_semaphore_create` by any sequence
of the binding's semaphore operations. -/
inductive SemReach : KSem → Prop where
  | init : SemReach osal_semaphore_create
  | post : ∀ s, SemReach s → SemReach (osal_semaphore_post s).1
  | wait : ∀ s m, SemReach s → SemReach (osal_semaphore_wait s m)
  | reset : ∀ s, SemReach s → SemReach (osal_semaphore_reset s)

/-- `k` successive posts (state effect only). -/
def postN : Nat → KSem → KSem
  | 0, s => s
  | k + 1, s => postN k (osal_semaphore_post s).1

/-- The machine state a queue operation touches: the queue definition's
`depth` and `item_sz` fields, the slab allocator's free-block count over the
caller-provided buffer, the FIFO contents (each element the bytes stored in
its slab block), and the calling thread's resource pool of free FIFO link
nodes (`k_fifo_alloc_put` takes one per queued item, `k_fifo_get` returns
it). -/
structure QState where
  depth : Nat
  item_sz : Nat
  freeBlocks : Nat
  fifo : List (List Nat)
  heapNodes : Nat
  deriving DecidableEq, Repr

/-- `k_mem_slab_alloc(&slab, &new_item, K_NO_WAIT)`: take a free block
without waiting; fails (returns `-ENOMEM`, here `false`) when none is free. -/
def k_mem_slab_alloc (s : QState) : QState × Bool :=
  if s.freeBlocks = 0 then (s, false)
  else ({ s with freeBlocks := s.freeBlocks - 1 }, true)

/-- `k_mem_slab_free(&slab, &item)`: return a block to the slab. -/
def k_mem_slab_free (s : QState) : QState :=
  { s with freeBlocks := s.freeBlocks + 1 }

/-- `k_fifo_alloc_put(&fifo, item)`: append `item` to the FIFO tail.  The
link node is allocated from the calling thread's resource pool; when the
pool is exhausted the call fails with `-ENOMEM` (here `false`) and the FIFO
is unchanged. -/
def k_fifo_alloc_put (s : QState) (item : List Nat) : QState × Bool :=
  if s.heapNodes = 0 then (s, false)
  else ({ s with fifo := s.fifo ++ [item], heapNodes := s.heapNodes - 1 }, true)

/-- `k_fifo_get(&fifo, K_FOREVER)`: with an infinite timeout the call blocks
until an item is available, so the empty case returns no value (`none`);
otherwise it removes the head item and frees its link node back to the
pool. -/
def k_fifo_get (s : QState) : Option (QState × List Nat) :=
  match s.fifo with
  | [] => none
  | item :: rest => some ({ s with fifo := rest, heapNodes := s.heapNodes + 1 }, item)

/-- `k_fifo_is_empty(&fifo)`: returns a nonzero value exactly when the FIFO
holds no items (Zephyr's `k_queue_is_empty` yields 1 when empty, else 0). -/
def k_fifo_is_empty (s : QState) : Nat :=
  if s.fifo.isEmpty then 1 else 0

/-- State `osal_queue_create(qdef)` leaves the queue definition in when
`k_mem_slab_init` succeeds: the slab carved into `depth` free blocks of
`item_sz` bytes over `qdef->buf`, and the FIFO initialized empty
(`k_fifo_init`).  `heapNodes` is the surrounding thread's pool of free FIFO
link nodes, untouched by creation. -/
def osal_queue_create_fresh (depth item_sz heapNodes : Nat) : QState :=
  ⟨depth, item_sz, depth, [], heapNodes⟩

/-- The value `osal_queue_create(qdef)` returns.  `qdefAddr` is the address
the caller's queue definition lives at (the value of the pointer parameter
`qdef`); `slotAddr` is the address of the function's own parameter variable
`qdef`.  On `k_mem_slab_init` failure (`initOk = false`) the source returns
`NULL` (`none`); on success it executes `return &qdef;`, whose value is the
address OF the parameter variable, i.e. `slotAddr`, not `qdefAddr`. -/
def osal_queue_create (qdefAddr slotAddr : Nat) (initOk : Bool) : Option Nat :=
  if initOk then some slotAddr else none

/-- `osal_queue_send(qhdl, data, in_isr)` translated from the source:
allocate a slab block without waiting (failure → `return false`), copy
`item_sz` bytes of `data` into the block, publish the block with
`k_fifo_alloc_put` (failure → free the block back to the slab and
`return false`), else `return true`.  (The source's stray `void in_isr;`
line has no state effect.) -/
def osal_queue_send (s : QState) (data : List Nat) : QState × Bool :=
  let a := k_mem_slab_alloc s
  if a.2 = false then (a.1, false)
  else
    let stored := data.take s.item_sz
    let p := k_fifo_alloc_put a.1 stored
    if p.2 = false then (k_mem_slab_free p.1, false)
    else (p.1, true)

/-- `osal_queue_receive(qhdl, data)` translated from the source: block on
`k_fifo_get(…, K_FOREVER)` (so the empty case never returns: `none`), copy
`item_sz` bytes from the block into `data`, free the block back to the slab
and return `true`.  The result carries the new state, the bytes copied to
the caller and the returned boolean. -/
def osal_queue_receive (s : QState) : Option (QState × List Nat × Bool) :=
  match k_fifo_get s with
  | none => none
  | some (s1, item) => some (k_mem_slab_free s1, item.take s1.item_sz, true)

/-- `osal_queue_empty(qhdl)`: the source returns
`k_fifo_is_empty(&qhdl->fifo) == 0`. -/
def osal_queue_empty (s : QState) : Bool :=
  k_fifo_is_empty s == 0

/-- Queue states reachable from a freshly created queue by sends and
(completed) receives. -/
inductive QReach (depth item_sz : Nat) : QState → Prop where
  | init : ∀ h, QReach depth item_sz (osal_queue_create_fresh depth item_sz h)
  | send : ∀ s data, QReach depth item_sz s →
      QReach depth item_sz (osal_queue_send s data).1
  | recv : ∀ s s1 item b, QReach depth item_sz s →
      osal_queue_receive s = some (s1, item, b) → QReach depth item_sz s1

/-- A sequence of sends; stops at the first failure, result flag is `true`
exactly when every send returned `true`. -/
def sendAll : QState → List (List Nat) → QState × Bool
  | s, [] => (s, true)
  | s, d :: ds =>
    let r := osal_queue_send s d
    if r.2 = false then (r.1, false) else sendAll r.1 ds

/-- `k` receives in sequence, collecting the bytes delivered to the caller;
`none` when some receive blocks forever. -/
def recvN : Nat → QState → Option (QState × List (List Nat))
  | 0, s => some (s, [])
  | k + 1, s =>
    match osal_queue_receive s with
    | none => none
    | some (s1, item, _) =>
      match recvN k s1 with
      | none => none
      | some (s2, items) => some (s2, item :: items)

/-! ## Basic facts shared by the claim proofs -/

/-- Posting to a semaphore whose limit is 1 twice equals posting once. -/
theorem give_give_of_limit_one (s : KSem) (hl : s.limit = 1) :
    k_sem_give (k_sem_give s) = k_sem_give s := by
  unfold k_sem_give
  rcases Nat.eq_zero_or_pos s.count with h0 | hpos
  · simp [hl, h0]
  · have : ¬ s.count < 1 := by omega
    simp [hl, this]

/-- `k_sem_give` never changes the limit. -/
theorem k_sem_give_limit (s : KSem) : (k_sem_give s).limit = s.limit := by
  unfold k_sem_give
  by_cases h : s.count < s.limit <;> simp [h]

/-- `k_sem_give` preserves the binary-semaphore invariant. -/
theorem k_sem_give_inv (s : KSem) (hl : s.limit = 1) (hc : s.count ≤ 1) :
    (k_sem_give s).limit = 1 ∧ (k_sem_give s).count ≤ 1 := by
  unfold k_sem_give
  by_cases hlt : s.count < s.limit <;> simp [hlt] <;> omega

/-- Every reachable semaphore state keeps the limit at 1 and the count at
most 1. -/
theorem semReach_invariant (s : KSem) (h : SemReach s) :
    s.limit = 1 ∧ s.count ≤ 1 := by
  induction h with
  | init => exact ⟨rfl, by decide⟩
  | post s hs ih => exact k_sem_give_inv s ih.1 ih.2
  | wait s m hs ih => exact k_sem_give_inv s ih.1 ih.2
  | reset s hs ih => exact ⟨ih.1, Nat.zero_le 1⟩

/-- On a limit-1 semaphore, `k ≥ 1` posts land in the same state as one. -/
theorem postN_idem (s : KSem) (hl : s.limit = 1) :
    ∀ k, 1 ≤ k → postN k s = postN 1 s := by
  intro k hk
  induction k with
  | zero => omega
  | succ n ih =>
    rcases Nat.eq_zero_or_pos n with h0 | hpos
    · subst h0; rfl
    · have hn := ih hpos
      have step : ∀ m t, KSem.limit t = 1 → postN (m + 1) t = k_sem_give (postN m t) := by
        intro m
        induction m with
        | zero => intro t ht; rfl
        | succ j ihj =>
          intro t ht
          have ht' : KSem.limit (osal_semaphore_post t).1 = 1 :=
            (k_sem_give_limit t).trans ht
          calc postN (j + 1 + 1) t = postN (j + 1) (osal_semaphore_post t).1 := rfl
            _ = k_sem_give (postN j (osal_semaphore_post t).1) := ihj _ ht'
            _ = k_sem_give (postN (j + 1) t) := rfl
      calc postN (n + 1) s = k_sem_give (postN n s) := step n s hl
        _ = k_sem_give (postN 1 s) := by rw [hn]
        _ = k_sem_give (k_sem_give s) := rfl
        _ = k_sem_give s := give_give_of_limit_one s hl
        _ = postN 1 s := rfl

/-! ## Claims C1 to C4: divergences between the source and the contract -/

/-- Claim C1 (refutation): `osal_semaphore_wait` does not have take
semantics.  On a freshly created semaphore the count is 0, so per the claim
a wait must block or time out and never increment the count; instead the
source invokes `k_sem_give`, and the wait leaves the count at 1. -/
theorem wait_increments_fresh_semaphore :
    osal_semaphore_create.count = 0 ∧
    (osal_semaphore_wait osal_semaphore_create 10).count = 1 := by
  decide

/-- Claim C2 (refutation): with the queue definition at address 100, the
function's own parameter slot at address 200 and a successful slab init,
`osal_queue_create` returns the parameter slot's address (`&qdef`), which is
not the address of the passed-in definition. -/
theorem create_returns_local_slot_address :
    osal_queue_create 100 200 true = some 200 ∧
    osal_queue_create 100 200 true ≠ some 100 := by
  decide

/-- Claim C3 (refutation): on a freshly created queue the FIFO holds no
items, yet `osal_queue_empty` returns `false`, because the source compares
`k_fifo_is_empty` (nonzero exactly when empty) against 0 with the test
inverted.  On a queue holding one item it returns `true`. -/
theorem queue_empty_is_inverted :
    (osal_queue_create_fresh 2 1 5).fifo = [] ∧
    osal_queue_empty (osal_queue_create_fresh 2 1 5) = false ∧
    osal_queue_empty ⟨2, 1, 1, [[7]], 5⟩ = true := by
  decide

/-- Claim C4 (refutation): `osal_semaphore_post` contains no return
statement, so on any valid handle — here a freshly created semaphore — the
boolean it hands back is not the defined value `true`; the function produces
no value at all (`none`). -/
theorem post_returns_no_value :
    (osal_semaphore_post osal_semaphore_create).2 = none ∧
    (osal_semaphore_post osal_semaphore_create).2 ≠ some true := by
  decide

/-! ## Queue helper lemmas -/

/-- A send with a free block and a free link node succeeds and moves one
slab block and one pool node into the FIFO entry. -/
theorem send_success (s : QState) (data : List Nat)
    (hb : s.freeBlocks ≠ 0) (hh : s.heapNodes ≠ 0) :
    osal_queue_send s data =
      (⟨s.depth, s.item_sz, s.freeBlocks - 1,
        s.fifo ++ [data.take s.item_sz], s.heapNodes - 1⟩, true) := by
  obtain ⟨d, isz, fb, fi, hn⟩ := s
  unfold osal_queue_send k_mem_slab_alloc k_fifo_alloc_put
  simp only at hb hh
  simp [hb, hh]

/-- A send fails exactly when the slab has no free block or the pool has no
free link node. -/
theorem send_false_iff (s : QState) (data : List Nat) :
    (osal_queue_send s data).2 = false ↔ (s.freeBlocks = 0 ∨ s.heapNodes = 0) := by
  obtain ⟨d, isz, fb, fi, hn⟩ := s
  unfold osal_queue_send k_mem_slab_alloc k_fifo_alloc_put k_mem_slab_free
  by_cases hb : fb = 0
  · simp [hb]
  · by_cases hh : hn = 0 <;> simp [hb, hh]

/-- A failed send leaves the machine state exactly as it was. -/
theorem send_false_state (s : QState) (data : List Nat)
    (hf : (osal_queue_send s data).2 = false) :
    (osal_queue_send s data).1 = s := by
  obtain ⟨d, isz, fb, fi, hn⟩ := s
  unfold osal_queue_send k_mem_slab_alloc k_fifo_alloc_put k_mem_slab_free at *
  by_cases hb : fb = 0
  · simp [hb]
  · by_cases hh : hn = 0
    · simp [hb, hh]
      omega
    · simp [hb, hh] at hf

/-- A completed receive pops the FIFO head and returns one slab block and
one link node. -/
theorem receive_success (s : QState) (a : List Nat) (r : List (List Nat))
    (hf : s.fifo = a :: r) :
    osal_queue_receive s =
      some (⟨s.depth, s.item_sz, s.freeBlocks + 1, r, s.heapNodes + 1⟩,
        a.take s.item_sz, true) := by
  obtain ⟨d, isz, fb, fi, hn⟩ := s
  simp only at hf
  subst hf
  rfl

/-- A receive on an empty FIFO blocks forever (`K_FOREVER`): no result. -/
theorem receive_empty_blocks (s : QState) (hf : s.fifo = []) :
    osal_queue_receive s = none := by
  obtain ⟨d, isz, fb, fi, hn⟩ := s
  simp only at hf
  subst hf
  rfl

/-! ## Claim C5: send never blocks and fails cleanly -/

/-- Claim C5: `osal_queue_send` is a total, non-waiting operation (the slab
allocation uses `K_NO_WAIT` and the publish never waits); it returns `false`
exactly when the queue is full (no free slab block) or the link-node
allocation fails, and on any failure it leaves the machine state — in
particular the FIFO — exactly as it was, so no receive can ever yield the
failed item. -/
theorem send_fails_cleanly (s : QState) (data : List Nat) :
    ((osal_queue_send s data).2 = false ↔ (s.freeBlocks = 0 ∨ s.heapNodes = 0)) ∧
    ((osal_queue_send s data).2 = false → (osal_queue_send s data).1 = s) :=
  ⟨send_false_iff s data, send_false_state s data⟩

/-- Witness for C5 at a concrete input: a queue with a free block but an
exhausted link-node pool; the failed send leaves the state unchanged. -/
theorem send_fails_cleanly_at_instance :
    (osal_queue_send ⟨2, 1, 2, [], 0⟩ [7]).1 = ⟨2, 1, 2, [], 0⟩ :=
  (send_fails_cleanly ⟨2, 1, 2, [], 0⟩ [7]).2 (by decide)

/-- A run of sends that all fit in the slab and in the link-node pool
succeeds and appends the truncated items in order. -/
theorem sendAll_ok (items : List (List Nat)) : ∀ (s : QState),
    items.length ≤ s.freeBlocks → items.length ≤ s.heapNodes →
    sendAll s items =
      (⟨s.depth, s.item_sz, s.freeBlocks - items.length,
        s.fifo ++ items.map (fun it => it.take s.item_sz),
        s.heapNodes - items.length⟩, true) := by
  induction items with
  | nil =>
    intro s _ _
    simp [sendAll]
  | cons a t ih =>
    intro s hb hh
    simp only [List.length_cons] at hb hh
    have hb0 : s.freeBlocks ≠ 0 := by omega
    have hh0 : s.heapNodes ≠ 0 := by omega
    rw [sendAll, send_success s a hb0 hh0]
    simp only [Bool.true_eq_false, if_false]
    rw [ih _ (by simp; omega) (by simp; omega)]
    simp only [Prod.mk.injEq, QState.mk.injEq, List.length_cons, List.map_cons]
    refine ⟨⟨trivial, trivial, by omega, by simp, by omega⟩, trivial⟩

/-- If a run of sends reported overall success, the items fitted in the
slab and in the link-node pool. -/
theorem sendAll_true_bounds (items : List (List Nat)) : ∀ (s : QState),
    (sendAll s items).2 = true →
    items.length ≤ s.freeBlocks ∧ items.length ≤ s.heapNodes := by
  induction items with
  | nil =>
    intro s _
    simp
  | cons a t ih =>
    intro s hok
    rw [sendAll] at hok
    by_cases hf : (osal_queue_send s a).2 = false
    · simp [hf] at hok
    · have hb0 : s.freeBlocks ≠ 0 := fun h => hf ((send_false_iff s a).mpr (Or.inl h))
      have hh0 : s.heapNodes ≠ 0 := fun h => hf ((send_false_iff s a).mpr (Or.inr h))
      rw [send_success s a hb0 hh0] at hok
      simp only [Bool.true_eq_false, if_false] at hok
      have := ih _ hok
      simp only [List.length_cons]
      simp only at this
      omega

/-- Draining a FIFO holding `l` returns each stored item, truncated to
`item_sz` bytes, in order, and returns every slab block and link node. -/
theorem recvN_ok (l : List (List Nat)) : ∀ (s : QState), s.fifo = l →
    recvN l.length s =
      some (⟨s.depth, s.item_sz, s.freeBlocks + l.length, [],
        s.heapNodes + l.length⟩, l.map (fun it => it.take s.item_sz)) := by
  induction l with
  | nil =>
    intro s hf
    obtain ⟨d, isz, fb, fi, hn⟩ := s
    simp only at hf
    subst hf
    simp [recvN]
  | cons a t ih =>
    intro s hf
    obtain ⟨d, isz, fb, fi, hn⟩ := s
    simp only at hf
    subst hf
    have hstep : osal_queue_receive ⟨d, isz, fb, a :: t, hn⟩ =
        some (⟨d, isz, fb + 1, t, hn + 1⟩, a.take isz, true) :=
      receive_success _ a t rfl
    have ih' := ih ⟨d, isz, fb + 1, t, hn + 1⟩ rfl
    simp only at ih'
    simp only [List.length_cons, recvN, hstep, ih']
    simp only [Option.some.injEq, Prod.mk.injEq, QState.mk.injEq, List.map_cons]
    refine ⟨⟨trivial, trivial, by omega, trivial, by omega⟩, trivial⟩

/-- Truncating items that are already exactly `n` bytes long is the
identity. -/
theorem take_map_eq_self (n : Nat) (l : List (List Nat))
    (hlen : ∀ it ∈ l, it.length = n) :
    l.map (fun it => it.take n) = l := by
  induction l with
  | nil => rfl
  | cons a t ih =>
    have ha : a.length = n := hlen a (List.mem_cons_self a t)
    simp only [List.map_cons]
    rw [ih (fun x hx => hlen x (List.mem_cons_of_mem a hx)), ← ha,
      List.take_length]

/-- Slab accounting invariant: in every reachable queue state the free
blocks and the queued items together account for the whole caller-provided
buffer, block for block. -/
theorem qReach_blocks (depth isz : Nat) (s : QState)
    (h : QReach depth isz s) : s.freeBlocks + s.fifo.length = depth := by
  induction h with
  | init h => simp [osal_queue_create_fresh]
  | send s data hs ih =>
    by_cases hf : (osal_queue_send s data).2 = false
    · rw [send_false_state s data hf]
      exact ih
    · have hb0 : s.freeBlocks ≠ 0 := fun h0 => hf ((send_false_iff s data).mpr (Or.inl h0))
      have hh0 : s.heapNodes ≠ 0 := fun h0 => hf ((send_false_iff s data).mpr (Or.inr h0))
      rw [send_success s data hb0 hh0]
      simp only [List.length_append, List.length_cons, List.length_nil]
      omega
  | recv s s1 item b hs hr ih =>
    match hfi : s.fifo with
    | [] => rw [receive_empty_blocks s hfi] at hr; cases hr
    | a :: t =>
      rw [receive_success s a t hfi] at hr
      cases hr
      rw [hfi] at ih
      simp only [List.length_cons] at ih ⊢
      omega

/-! ## Claim C6: single-producer FIFO order and byte-for-byte delivery -/

/-- Claim C6: items of exactly `item_sz` bytes sent by a single producer —
all sends completing successfully — are yielded by that many receives in
exactly the send order, each byte-for-byte equal to the corresponding
input; afterwards the queue is back in its freshly created state. -/
theorem queue_fifo_roundtrip (depth isz h : Nat) (items : List (List Nat))
    (hlen : ∀ it ∈ items, it.length = isz)
    (hok : (sendAll (osal_queue_create_fresh depth isz h) items).2 = true) :
    recvN items.length (sendAll (osal_queue_create_fresh depth isz h) items).1 =
      some (osal_queue_create_fresh depth isz h, items) := by
  have hmap : items.map (fun it => it.take isz) = items :=
    take_map_eq_self isz items hlen
  obtain ⟨hb, hh2⟩ :=
    sendAll_true_bounds items (osal_queue_create_fresh depth isz h) hok
  simp only [osal_queue_create_fresh] at hb hh2
  calc recvN items.length (sendAll (osal_queue_create_fresh depth isz h) items).1
      = recvN items.length ⟨depth, isz, depth - items.length,
          items.map (fun it => it.take isz), h - items.length⟩ := by
        rw [sendAll_ok items (osal_queue_create_fresh depth isz h) hb hh2]
        simp [osal_queue_create_fresh]
    _ = recvN items.length ⟨depth, isz, depth - items.length,
          items, h - items.length⟩ := by rw [hmap]
    _ = some (⟨depth, isz, depth - items.length + items.length, [],
          h - items.length + items.length⟩,
          items.map (fun it => it.take isz)) := recvN_ok items _ rfl
    _ = some (osal_queue_create_fresh depth isz h, items) := by
        rw [hmap]
        simp only [osal_queue_create_fresh, Option.some.injEq, Prod.mk.injEq,
          QState.mk.injEq]
        refine ⟨⟨trivial, trivial, by omega, trivial, by omega⟩, trivial⟩

/-- Witness for C6 at a concrete input: three 1-byte items round-trip in
order through a capacity-4 queue. -/
theorem queue_fifo_roundtrip_at_instance :
    recvN 3 (sendAll (osal_queue_create_fresh 4 1 4) [[17], [34], [51]]).1 =
      some (osal_queue_create_fresh 4 1 4, [[17], [34], [51]]) :=
  queue_fifo_roundtrip 4 1 4 [[17], [34], [51]] (by decide) (by decide)

/-! ## Claim C7: capacity discipline -/

/-- Claim C7 (refutation of the unconditional statement): a queue of
capacity 1 created by a thread whose link-node pool is empty is not full,
yet the first of the `n` sends the claim asserts to succeed returns
`false`, because the publish step must allocate a link node. -/
theorem capacity_send_fails_with_empty_pool :
    0 < (osal_queue_create_fresh 1 4 0).freeBlocks ∧
    (osal_queue_send (osal_queue_create_fresh 1 4 0) [9, 9, 9, 9]).2 = false := by
  decide

/-- Claim C7 (amended): when the creating thread's resource pool holds at
least `n` free link nodes, `n` consecutive sends on a capacity-`n` queue
succeed, the `(n+1)`-th send returns `false`, after one completed receive a
further send returns `true`, and no reachable state ever holds more than
`n` items. -/
theorem queue_capacity_discipline (n isz h : Nat) (items : List (List Nat))
    (d e : List Nat) (hpos : 0 < n) (hlen : items.length = n) (hpool : n ≤ h) :
    (sendAll (osal_queue_create_fresh n isz h) items).2 = true ∧
    (osal_queue_send (sendAll (osal_queue_create_fresh n isz h) items).1 d).2
      = false ∧
    (∃ s1 itm,
      osal_queue_receive (sendAll (osal_queue_create_fresh n isz h) items).1 =
        some (s1, itm, true) ∧
      (osal_queue_send s1 e).2 = true) ∧
    (∀ s, QReach n isz s → s.fifo.length ≤ n) := by
  have hb : items.length ≤ (osal_queue_create_fresh n isz h).freeBlocks := by
    simp [osal_queue_create_fresh, hlen]
  have hh2 : items.length ≤ (osal_queue_create_fresh n isz h).heapNodes := by
    simp [osal_queue_create_fresh, hlen, hpool]
  have hsa := sendAll_ok items (osal_queue_create_fresh n isz h) hb hh2
  have hsend : sendAll (osal_queue_create_fresh n isz h) items =
      (⟨n, isz, 0, items.map (fun it => it.take isz), h - n⟩, true) := by
    rw [hsa]
    simp [osal_queue_create_fresh, hlen]
  rw [hsend]
  refine ⟨rfl, ?_, ?_, ?_⟩
  · exact (send_false_iff _ d).mpr (Or.inl rfl)
  · match items, hlen with
    | a :: t, _ =>
      refine ⟨_, _, receive_success ⟨n, isz, 0, (a :: t).map
        (fun it => it.take isz), h - n⟩ (a.take isz)
        (t.map (fun it => it.take isz)) (by simp), ?_⟩
      rw [send_success _ e (by simp) (by simp)]
    | [], hl => simp at hl; omega
  · intro s hs
    have := qReach_blocks n isz s hs
    omega

/-- Witness for C7 at a concrete input: capacity 2, pool of 2; two sends
succeed and a third returns `false`. -/
theorem queue_capacity_discipline_at_instance :
    (sendAll (osal_queue_create_fresh 2 1 2) [[1], [2]]).2 = true ∧
    (osal_queue_send (sendAll (osal_queue_create_fresh 2 1 2) [[1], [2]]).1
      [3]).2 = false :=
  ⟨(queue_capacity_discipline 2 1 2 [[1], [2]] [3] [4]
      (by decide) (by decide) (by decide)).1,
   (queue_capacity_discipline 2 1 2 [[1], [2]] [3] [4]
      (by decide) (by decide) (by decide)).2.1⟩

/-! ## Claim C8: binary semaphore invariants -/

/-- Claim C8: a created semaphore starts with count 0; under any sequence
of the binding's semaphore operations the count never exceeds 1; and `k ≥ 1`
posts without an intervening wait leave the same state as a single post. -/
theorem semaphore_binary_invariants :
    osal_semaphore_create.count = 0 ∧
    (∀ s, SemReach s → s.count ≤ 1) ∧
    (∀ s k, SemReach s → 1 ≤ k → postN k s = postN 1 s) :=
  ⟨rfl, fun s hs => (semReach_invariant s hs).2,
   fun s k hs hk => postN_idem s (semReach_invariant s hs).1 k hk⟩

/-- Witness for C8 at a concrete input: the created semaphore itself, with
three posts collapsing to one. -/
theorem semaphore_binary_invariants_at_instance :
    osal_semaphore_create.count ≤ 1 ∧
    postN 3 osal_semaphore_create = postN 1 osal_semaphore_create :=
  ⟨semaphore_binary_invariants.2.1 osal_semaphore_create SemReach.init,
   semaphore_binary_invariants.2.2 osal_semaphore_create 3 SemReach.init
     (by decide)⟩

/-! ## Claim C9: allocation sources of a send -/

/-- Claim C9 (refutation): a send on a queue that is NOT full (a slab block
is free) fails when the kernel link-node pool is empty and succeeds —
consuming one pool node — when it is not: `osal_queue_send` allocates from
the kernel heap, so caller-provided backing storage is not the only memory
an OSAL operation uses. -/
theorem send_consumes_kernel_pool_node :
    0 < (osal_queue_create_fresh 1 1 0).freeBlocks ∧
    (osal_queue_send (osal_queue_create_fresh 1 1 0) [5]).2 = false ∧
    (osal_queue_send (osal_queue_create_fresh 1 1 1) [5]).2 = true ∧
    (osal_queue_send (osal_queue_create_fresh 1 1 1) [5]).1.heapNodes = 0 := by
  decide

/-- Claim C9 (amended): the item payload of every successful send is stored
in a slab block carved from the caller-provided buffer (one free block is
consumed and the stored bytes are appended to the FIFO), but each
successful send additionally allocates exactly one FIFO link node from the
kernel's thread resource pool, which a completed receive frees back
together with the slab block. -/
theorem send_storage_accounting (s : QState) (data : List Nat)
    (hok : (osal_queue_send s data).2 = true) :
    s.freeBlocks ≠ 0 ∧ s.heapNodes ≠ 0 ∧
    (osal_queue_send s data).1 =
      ⟨s.depth, s.item_sz, s.freeBlocks - 1,
        s.fifo ++ [data.take s.item_sz], s.heapNodes - 1⟩ ∧
    (∀ t t1 itm b, osal_queue_receive t = some (t1, itm, b) →
        t1.freeBlocks = t.freeBlocks + 1 ∧ t1.heapNodes = t.heapNodes + 1) := by
  have hb0 : s.freeBlocks ≠ 0 := by
    intro h0
    rw [(send_false_iff s data).mpr (Or.inl h0)] at hok
    cases hok
  have hh0 : s.heapNodes ≠ 0 := by
    intro h0
    rw [(send_false_iff s data).mpr (Or.inr h0)] at hok
    cases hok
  refine ⟨hb0, hh0, by rw [send_success s data hb0 hh0], ?_⟩
  intro t t1 itm b hr
  match hft : t.fifo with
  | [] =>
    rw [receive_empty_blocks t hft] at hr
    cases hr
  | a :: r =>
    rw [receive_success t a r hft] at hr
    cases hr
    exact ⟨rfl, rfl⟩

/-- Witness for C9's amended statement at a concrete input: a successful
send stores the two payload bytes in the single slab block and takes the
pool from 3 to 2 nodes; the matching receive hands both back. -/
theorem send_storage_accounting_at_instance :
    (osal_queue_send (osal_queue_create_fresh 1 2 3) [5, 6]).1 =
      ⟨1, 2, 0, [[5, 6]], 2⟩ ∧
    (1 : Nat) = 0 + 1 ∧ (3 : Nat) = 2 + 1 := by
  have h := send_storage_accounting (osal_queue_create_fresh 1 2 3) [5, 6]
    (by decide)
  have hr := h.2.2.2 ⟨1, 2, 0, [[5, 6]], 2⟩ ⟨1, 2, 1, [], 3⟩ [5, 6] true
    (by decide)
  refine ⟨?_, hr.1, hr.2⟩
  rw [h.2.2.1]
  decide

/-! ## Claim C10: a failed publish leaks no block -/

/-- Claim C10: when a send allocates a slab block but the FIFO publish step
fails (no link node available), the block is freed back before the `false`
return: the allocator's free-block count and the queue contents are exactly
what they were before the call. -/
theorem failed_publish_frees_block (s : QState) (data : List Nat)
    (hb : s.freeBlocks ≠ 0) (hh : s.heapNodes = 0) :
    (osal_queue_send s data).2 = false ∧
    (osal_queue_send s data).1.freeBlocks = s.freeBlocks ∧
    (osal_queue_send s data).1.fifo = s.fifo := by
  have hf : (osal_queue_send s data).2 = false :=
    (send_false_iff s data).mpr (Or.inr hh)
  have hst := send_false_state s data hf
  exact ⟨hf, by rw [hst], by rw [hst]⟩

/-- Witness for C10 at a concrete input: two free blocks, empty pool; the
failed send leaves the free-block count at 2 and the queued item intact. -/
theorem failed_publish_frees_block_at_instance :
    (osal_queue_send ⟨3, 2, 2, [[1, 1]], 0⟩ [9, 9]).2 = false ∧
    (osal_queue_send ⟨3, 2, 2, [[1, 1]], 0⟩ [9, 9]).1.freeBlocks = 2 ∧
    (osal_queue_send ⟨3, 2, 2, [[1, 1]], 0⟩ [9, 9]).1.fifo = [[1, 1]] :=
  failed_publish_frees_block ⟨3, 2, 2, [[1, 1]], 0⟩ [9, 9] (by decide)
    (by decide)
